import Mathlib

/-!
Verification development for `post_results.py`, the Azure DevOps test-result
reporter.  Python dictionaries are modelled as association lists of
string-keyed `Value`s; because `process_test_results` mutates the caller's
dictionaries in place, dictionaries live in an explicit heap and the local
`test_results` mapping maps test-case ids to heap references.
-/

set_option autoImplicit false

namespace PostResults

/-- A JSON-ish scalar value stored in a result record. -/
inductive Value where
  | vStr : String → Value
  | vNat : Nat → Value
  deriving DecidableEq, Repr

/-- A Python dict with string keys, as an insertion-ordered association list
(keys are unique in any dict produced by `json.load`). -/
abbrev Dict := List (String × Value)

/-- Python `d.get(key)` / `d[key]` lookup: first entry with the key. -/
def dictGet : Dict → String → Option Value
  | [], _ => none
  | (k, v) :: d, key => if k = key then some v else dictGet d key

/-- Python `d[key] = v` (also one key of `d.update({...})`): replace the value in
place when the key exists, else append the pair at the end. -/
def dictSet : Dict → String → Value → Dict
  | [], key, v => [(key, v)]
  | (k, w) :: d, key, v =>
    if k = key then (key, v) :: d else (k, w) :: dictSet d key v

/-- A heap of dictionaries: Python object identity is a `Nat` reference. -/
structure Heap where
  mem : Nat → Dict
  next : Nat

/-- Overwrite the dict stored at reference `r` (in-place mutation). -/
def Heap.set (h : Heap) (r : Nat) (d : Dict) : Heap :=
  ⟨fun x => if x = r then d else h.mem x, h.next⟩

/-- Allocate a fresh dict (a dict literal in the source), returning the new
heap and the fresh reference. -/
def Heap.alloc (h : Heap) (d : Dict) : Heap × Nat :=
  (⟨fun x => if x = h.next then d else h.mem x, h.next + 1⟩, h.next)

/-- One element of the `value` array returned by the test-plans endpoint. -/
structure TestPlan where
  id : Nat
  name : String
  deriving DecidableEq, Repr

/-- One element of the `value` array returned by the test-suites endpoint. -/
structure TestSuite where
  id : Nat
  name : String
  deriving DecidableEq, Repr

/-- One placeholder result record of the run (`point_result` in the source):
only its `id` and `testCase.id` fields are read. -/
structure TestPoint where
  id : Nat
  testCaseId : String
  deriving DecidableEq, Repr

/-- The observable part of a `requests.Response` used by the PATCH calls. -/
structure HttpResponse where
  status_code : Nat
  text : String
  deriving DecidableEq, Repr

/-- Function `get_test_plan_id`: linear scan of the server's plan list for the first
exact name match; `ValueError` (modelled as `Except.error`) when absent. -/
def get_test_plan_id (plans : List TestPlan) (test_plan_name : String) :
    Except String Nat :=
  match plans.find? (fun plan => plan.name = test_plan_name) with
  | some plan => Except.ok plan.id
  | none => Except.error ("Test plan '" ++ test_plan_name ++ "' not found")

/-- Function `get_test_suite_id`: same scan over the plan's suites; the error message
also names the plan id. -/
def get_test_suite_id (suites : List TestSuite) (test_plan_id : Nat)
    (test_suite_name : String) : Except String Nat :=
  match suites.find? (fun suite => suite.name = test_suite_name) with
  | some suite => Except.ok suite.id
  | none =>
    Except.error ("Test suite '" ++ test_suite_name ++ "' not found in plan "
      ++ toString test_plan_id)

/-- Lookup `test_results.get(key, default)` resolving to a heap reference:
first entry of the mapping whose key matches. -/
def lookupRef (test_results : List (String × Nat)) (key : String) :
    Option Nat :=
  (test_results.find? (fun q => q.1 = key)).map (fun q => q.2)

/-- The default dict literal `{"outcome": "NotExecuted"}`. -/
def defaultResult : Dict := [("outcome", Value.vStr "NotExecuted")]

/-- Python `result.update({"id": ..., "state": "Completed", "priority":
result.get("priority", 2)})`: the literal's values are computed from the dict
as it stands, then the three keys are written in order. -/
def resultUpdate (d : Dict) (pid : Nat) : Dict :=
  dictSet (dictSet (dictSet d "id" (Value.vNat pid))
      "state" (Value.vStr "Completed"))
    "priority" ((dictGet d "priority").getD (Value.vNat 2))

/-- The whole in-place transformation one loop iteration applies to the
result dict, including the conditional `failureType` default. -/
def mergeDict (d : Dict) (pid : Nat) : Dict :=
  let d1 := resultUpdate d pid
  if dictGet d1 "outcome" = some (Value.vStr "Passed") then d1
  else dictSet d1 "failureType"
    ((dictGet d1 "failureType").getD (Value.vStr "New Issue"))

/-- Client state threaded through the result-processing loop: the heap of
dicts, the instance attribute `is_failure`, and `test_results_payload` as the
list of references appended so far. -/
structure PState where
  heap : Heap
  is_failure : Bool
  payload : List Nat

/-- One iteration of the loop in `process_test_results`: fetch (or freshly
allocate) the result dict, mutate it in place via `mergeDict`, set
`is_failure` when the outcome is not `"Passed"`, and append the reference to
the payload.  Reading `result["outcome"]` on a dict without that key is a
`KeyError`, modelled as `Except.error`. -/
def processPoint (test_results : List (String × Nat)) (p : TestPoint)
    (s : PState) : Except String PState :=
  let hr : Heap × Nat :=
    match lookupRef test_results p.testCaseId with
    | some r => (s.heap, r)
    | none => s.heap.alloc defaultResult
  match dictGet (resultUpdate (hr.1.mem hr.2) p.id) "outcome" with
  | none => Except.error "KeyError: outcome"
  | some oc =>
    Except.ok ⟨hr.1.set hr.2 (mergeDict (hr.1.mem hr.2) p.id),
      if oc = Value.vStr "Passed" then s.is_failure else true,
      s.payload ++ [hr.2]⟩

/-- The `for point_result in test_points_results` loop. -/
def processLoop (test_results : List (String × Nat)) (s : PState) :
    List TestPoint → Except String PState
  | [] => Except.ok s
  | p :: ps =>
    match processPoint test_results p s with
    | Except.ok s1 => processLoop test_results s1 ps
    | Except.error e => Except.error e

/-- Function `process_test_results`: given the local mapping, the server's placeholder
records, the initial heap and the current `is_failure` flag, returns the
payload (as references), the final heap and the final flag. -/
def process_test_results (test_results : List (String × Nat))
    (points : List TestPoint) (h0 : Heap) (fl0 : Bool) :
    Except String (List Nat × Heap × Bool) :=
  match processLoop test_results ⟨h0, fl0, []⟩ points with
  | Except.ok s => Except.ok (s.payload, s.heap, s.is_failure)
  | Except.error e => Except.error e

/-- Whether `process_test_results` runs to completion. -/
def processOk (test_results : List (String × Nat)) (points : List TestPoint)
    (h0 : Heap) (fl0 : Bool) : Bool :=
  match process_test_results test_results points h0 fl0 with
  | Except.ok _ => true
  | Except.error _ => false

/-- The payload returned by a successful `process_test_results`. -/
def processPayload (test_results : List (String × Nat))
    (points : List TestPoint) (h0 : Heap) (fl0 : Bool) : List Nat :=
  match process_test_results test_results points h0 fl0 with
  | Except.ok x => x.1
  | Except.error _ => []

/-- The heap after a successful `process_test_results`. -/
def processHeap (test_results : List (String × Nat))
    (points : List TestPoint) (h0 : Heap) (fl0 : Bool) : Heap :=
  match process_test_results test_results points h0 fl0 with
  | Except.ok x => x.2.1
  | Except.error _ => h0

/-- The `is_failure` flag after a successful `process_test_results`. -/
def processFlag (test_results : List (String × Nat))
    (points : List TestPoint) (h0 : Heap) (fl0 : Bool) : Bool :=
  match process_test_results test_results points h0 fl0 with
  | Except.ok x => x.2.2
  | Except.error _ => fl0

/-- Function `post_test_results`: raises a `ValueError` carrying the status code and
body text unless the PATCH response status is exactly 200. -/
def post_test_results (response : HttpResponse) : Except String Unit :=
  if response.status_code ≠ 200 then
    Except.error ("Unexpected Response while posting test results to ADO: "
      ++ "status_code: " ++ toString response.status_code
      ++ " response_text: " ++ response.text)
  else Except.ok ()

/-- Function `complete_test_run`: picks the final run state from `is_failure`, PATCHes
it, and raises unless the response status is exactly 200.  Returns the state
string it patched. -/
def complete_test_run (is_failure : Bool) (response : HttpResponse) :
    Except String String :=
  let state := if is_failure then "NeedsInvestigation" else "Completed"
  if response.status_code ≠ 200 then
    Except.error ("Unexpected Response while completing the test run in ADO: "
      ++ "status_code: " ++ toString response.status_code
      ++ " response_text: " ++ response.text)
  else Except.ok state

/-! ### Dictionary lemmas -/

theorem dictGet_dictSet_self (d : Dict) (k : String) (v : Value) :
    dictGet (dictSet d k v) k = some v := by
  induction d with
  | nil => simp [dictGet, dictSet]
  | cons p d ih =>
    by_cases h : p.1 = k
    · simp [dictGet, dictSet, h]
    · simp [dictGet, dictSet, h, ih]

theorem dictGet_dictSet_ne (d : Dict) (k : String) (v : Value) (k' : String)
    (h : k' ≠ k) : dictGet (dictSet d k v) k' = dictGet d k' := by
  induction d with
  | nil =>
    simp only [dictSet, dictGet]
    rw [if_neg (fun hk => h hk.symm)]
  | cons p d ih =>
    obtain ⟨a, b⟩ := p
    by_cases hp : a = k
    · simp only [dictSet, if_pos hp, dictGet]
      rw [if_neg (fun hk => h hk.symm), if_neg (fun hk => h (hp ▸ hk).symm)]
    · simp only [dictSet, if_neg hp, dictGet, ih]

theorem mergeDict_get_outcome (d : Dict) (pid : Nat) :
    dictGet (mergeDict d pid) "outcome" = dictGet d "outcome" := by
  have hru : dictGet (resultUpdate d pid) "outcome" = dictGet d "outcome" := by
    rw [resultUpdate, dictGet_dictSet_ne _ _ _ _ (by decide),
      dictGet_dictSet_ne _ _ _ _ (by decide),
      dictGet_dictSet_ne _ _ _ _ (by decide)]
  rw [mergeDict]
  split
  · exact hru
  · rw [dictGet_dictSet_ne _ _ _ _ (by decide)]
    exact hru

theorem mergeDict_get_state (d : Dict) (pid : Nat) :
    dictGet (mergeDict d pid) "state" = some (Value.vStr "Completed") := by
  have hru : dictGet (resultUpdate d pid) "state"
      = some (Value.vStr "Completed") := by
    rw [resultUpdate, dictGet_dictSet_ne _ _ _ _ (by decide),
      dictGet_dictSet_self]
  rw [mergeDict]
  split
  · exact hru
  · rw [dictGet_dictSet_ne _ _ _ _ (by decide)]
    exact hru

theorem mergeDict_get_priority (d : Dict) (pid : Nat) :
    dictGet (mergeDict d pid) "priority"
      = some ((dictGet d "priority").getD (Value.vNat 2)) := by
  have hru : dictGet (resultUpdate d pid) "priority"
      = some ((dictGet d "priority").getD (Value.vNat 2)) := by
    rw [resultUpdate, dictGet_dictSet_self]
  rw [mergeDict]
  split
  · exact hru
  · rw [dictGet_dictSet_ne _ _ _ _ (by decide)]
    exact hru

theorem mergeDict_get_id (d : Dict) (pid : Nat) :
    dictGet (mergeDict d pid) "id" = some (Value.vNat pid) := by
  have hru : dictGet (resultUpdate d pid) "id" = some (Value.vNat pid) := by
    rw [resultUpdate, dictGet_dictSet_ne _ _ _ _ (by decide),
      dictGet_dictSet_ne _ _ _ _ (by decide), dictGet_dictSet_self]
  rw [mergeDict]
  split
  · exact hru
  · rw [dictGet_dictSet_ne _ _ _ _ (by decide)]
    exact hru

theorem resultUpdate_get_failureType (d : Dict) (pid : Nat) :
    dictGet (resultUpdate d pid) "failureType" = dictGet d "failureType" := by
  rw [resultUpdate, dictGet_dictSet_ne _ _ _ _ (by decide),
    dictGet_dictSet_ne _ _ _ _ (by decide),
    dictGet_dictSet_ne _ _ _ _ (by decide)]

theorem mergeDict_get_failureType_passed (d : Dict) (pid : Nat)
    (h : dictGet d "outcome" = some (Value.vStr "Passed")) :
    dictGet (mergeDict d pid) "failureType" = dictGet d "failureType" := by
  have hru : dictGet (resultUpdate d pid) "outcome" = dictGet d "outcome" := by
    rw [resultUpdate, dictGet_dictSet_ne _ _ _ _ (by decide),
      dictGet_dictSet_ne _ _ _ _ (by decide),
      dictGet_dictSet_ne _ _ _ _ (by decide)]
  rw [mergeDict]
  split
  · exact resultUpdate_get_failureType d pid
  · rename_i hcond
    exact absurd (hru.trans h) hcond

theorem mergeDict_get_failureType_failed (d : Dict) (pid : Nat)
    (h : dictGet d "outcome" ≠ some (Value.vStr "Passed")) :
    dictGet (mergeDict d pid) "failureType"
      = some ((dictGet d "failureType").getD (Value.vStr "New Issue")) := by
  have hru : dictGet (resultUpdate d pid) "outcome" = dictGet d "outcome" := by
    rw [resultUpdate, dictGet_dictSet_ne _ _ _ _ (by decide),
      dictGet_dictSet_ne _ _ _ _ (by decide),
      dictGet_dictSet_ne _ _ _ _ (by decide)]
  rw [mergeDict]
  split
  · rename_i hcond
    exact absurd (hru.symm.trans hcond) h
  · rw [dictGet_dictSet_self, resultUpdate_get_failureType]

theorem mergeDict_get_other (d : Dict) (pid : Nat) (k : String)
    (h1 : k ≠ "id") (h2 : k ≠ "state") (h3 : k ≠ "priority")
    (h4 : k ≠ "failureType") :
    dictGet (mergeDict d pid) k = dictGet d k := by
  have hru : dictGet (resultUpdate d pid) k = dictGet d k := by
    rw [resultUpdate, dictGet_dictSet_ne _ _ _ _ h3,
      dictGet_dictSet_ne _ _ _ _ h2, dictGet_dictSet_ne _ _ _ _ h1]
  rw [mergeDict]
  split
  · exact hru
  · rw [dictGet_dictSet_ne _ _ _ _ h4]
    exact hru

theorem resultUpdate_get_outcome (d : Dict) (pid : Nat) :
    dictGet (resultUpdate d pid) "outcome" = dictGet d "outcome" := by
  rw [resultUpdate, dictGet_dictSet_ne _ _ _ _ (by decide),
    dictGet_dictSet_ne _ _ _ _ (by decide),
    dictGet_dictSet_ne _ _ _ _ (by decide)]

/-! ### The shape of a merged record

`MergedInv d0 d` relates the dict `d0` a result record started from (the
caller's dict, or the `{"outcome": "NotExecuted"}` default) to the dict `d`
it holds after one or more loop iterations mutated it. -/

def MergedInv (d0 d : Dict) : Prop :=
  dictGet d "outcome" = dictGet d0 "outcome" ∧
  dictGet d "state" = some (Value.vStr "Completed") ∧
  dictGet d "priority" = some ((dictGet d0 "priority").getD (Value.vNat 2)) ∧
  (dictGet d0 "outcome" ≠ some (Value.vStr "Passed") →
    dictGet d "failureType"
      = some ((dictGet d0 "failureType").getD (Value.vStr "New Issue"))) ∧
  (dictGet d0 "outcome" = some (Value.vStr "Passed") →
    dictGet d "failureType" = dictGet d0 "failureType") ∧
  (∀ k, k ≠ "id" → k ≠ "state" → k ≠ "priority" → k ≠ "failureType" →
    dictGet d k = dictGet d0 k)

theorem MergedInv_init (d : Dict) (pid : Nat) :
    MergedInv d (mergeDict d pid) := by
  refine ⟨mergeDict_get_outcome d pid, mergeDict_get_state d pid,
    mergeDict_get_priority d pid, ?_, ?_, ?_⟩
  · exact fun h => mergeDict_get_failureType_failed d pid h
  · exact fun h => mergeDict_get_failureType_passed d pid h
  · exact fun k h1 h2 h3 h4 => mergeDict_get_other d pid k h1 h2 h3 h4

theorem MergedInv_step (d0 d : Dict) (pid : Nat) (h : MergedInv d0 d) :
    MergedInv d0 (mergeDict d pid) := by
  obtain ⟨hoc, _, hpr, hff, hfp, hother⟩ := h
  refine ⟨(mergeDict_get_outcome d pid).trans hoc, mergeDict_get_state d pid,
    ?_, ?_, ?_, ?_⟩
  · rw [mergeDict_get_priority d pid, hpr]
    rfl
  · intro h0
    have hdoc : dictGet d "outcome" ≠ some (Value.vStr "Passed") := by
      rw [hoc]; exact h0
    rw [mergeDict_get_failureType_failed d pid hdoc, hff h0]
    rfl
  · intro h0
    have hdoc : dictGet d "outcome" = some (Value.vStr "Passed") := by
      rw [hoc]; exact h0
    rw [mergeDict_get_failureType_passed d pid hdoc, hfp h0]
  · intro k h1 h2 h3 h4
    rw [mergeDict_get_other d pid k h1 h2 h3 h4, hother k h1 h2 h3 h4]

/-- Elimination form for a successful loop iteration. -/
theorem processPoint_ok_cases {test_results : List (String × Nat)}
    {p : TestPoint} {s s' : PState}
    (hok : processPoint test_results p s = Except.ok s') :
    ∃ h1 r,
      ((lookupRef test_results p.testCaseId = some r ∧ h1 = s.heap) ∨
        (lookupRef test_results p.testCaseId = none ∧ r = s.heap.next
          ∧ h1 = (s.heap.alloc defaultResult).1)) ∧
      ∃ oc, dictGet (h1.mem r) "outcome" = some oc ∧
        s'.heap = h1.set r (mergeDict (h1.mem r) p.id) ∧
        s'.payload = s.payload ++ [r] ∧
        s'.is_failure
          = (if oc = Value.vStr "Passed" then s.is_failure else true) := by
  cases hlk : lookupRef test_results p.testCaseId with
  | some r =>
    simp only [processPoint, hlk] at hok
    cases hoc : dictGet (resultUpdate (s.heap.mem r) p.id) "outcome" with
    | none => rw [hoc] at hok; cases hok
    | some oc =>
      rw [hoc] at hok
      cases hok
      exact ⟨s.heap, r, Or.inl ⟨rfl, rfl⟩, oc,
        (resultUpdate_get_outcome (s.heap.mem r) p.id).symm.trans hoc,
        rfl, rfl, rfl⟩
  | none =>
    simp only [processPoint, hlk] at hok
    cases hoc : dictGet
        (resultUpdate ((s.heap.alloc defaultResult).1.mem
          (s.heap.alloc defaultResult).2) p.id) "outcome" with
    | none => rw [hoc] at hok; cases hok
    | some oc =>
      rw [hoc] at hok
      cases hok
      exact ⟨(s.heap.alloc defaultResult).1, s.heap.next,
        Or.inr ⟨rfl, rfl, rfl⟩, oc,
        (resultUpdate_get_outcome _ p.id).symm.trans hoc, rfl, rfl, rfl⟩

theorem Heap.mem_set (h : Heap) (r : Nat) (d : Dict) (x : Nat) :
    (h.set r d).mem x = if x = r then d else h.mem x := rfl

theorem Heap.next_set (h : Heap) (r : Nat) (d : Dict) :
    (h.set r d).next = h.next := rfl

theorem Heap.mem_alloc (h : Heap) (d : Dict) (x : Nat) :
    ((h.alloc d).1).mem x = if x = h.next then d else h.mem x := rfl

theorem Heap.next_alloc (h : Heap) (d : Dict) :
    ((h.alloc d).1).next = h.next + 1 := rfl

theorem lookupRef_mem {test_results : List (String × Nat)} {k : String}
    {r : Nat} (h : lookupRef test_results k = some r) :
    ∃ q ∈ test_results, q.2 = r := by
  unfold lookupRef at h
  cases hf : test_results.find? (fun q => q.1 = k) with
  | none => rw [hf] at h; cases h
  | some q =>
    rw [hf] at h
    cases h
    exact ⟨q, List.mem_of_find?_eq_some hf, rfl⟩

/-! ### Loop invariant -/

/-- Invariant of the `process_test_results` loop, relative to the initial
heap `h0` and initial flag `fl0`: the allocation pointer only grows, dicts
not in the payload are untouched, payload references are allocated, every
payload entry is a merged version of its original dict (the caller's dict
for a matched test case, the `NotExecuted` default otherwise), and the flag
is set exactly when it started set or some payload record's outcome is not
`"Passed"`. -/
structure Inv (test_results : List (String × Nat)) (h0 : Heap) (fl0 : Bool)
    (s : PState) : Prop where
  nextLe : h0.next ≤ s.heap.next
  frame : ∀ r, r ∉ s.payload → s.heap.mem r = h0.mem r
  bound : ∀ r ∈ s.payload, r < s.heap.next
  entries : ∀ r ∈ s.payload, ∃ d0,
    (((∃ q ∈ test_results, q.2 = r) ∧ d0 = h0.mem r) ∨
      (h0.next ≤ r ∧ d0 = defaultResult)) ∧
    MergedInv d0 (s.heap.mem r)
  flagIff : s.is_failure = true ↔ (fl0 = true ∨
    ∃ r ∈ s.payload,
      dictGet (s.heap.mem r) "outcome" ≠ some (Value.vStr "Passed"))

theorem Inv_init (test_results : List (String × Nat)) (h0 : Heap)
    (fl0 : Bool) : Inv test_results h0 fl0 ⟨h0, fl0, []⟩ := by
  refine ⟨Nat.le_refl _, fun r _ => rfl, fun r hr => absurd hr (by simp),
    fun r hr => absurd hr (by simp), ?_⟩
  simp

theorem Inv_step {test_results : List (String × Nat)} {h0 : Heap}
    {fl0 : Bool} {p : TestPoint} {s s' : PState}
    (htr : ∀ q ∈ test_results, q.2 < h0.next)
    (hinv : Inv test_results h0 fl0 s)
    (hok : processPoint test_results p s = Except.ok s') :
    Inv test_results h0 fl0 s' := by
  obtain ⟨h1, r, hcase, oc, hoc, hheap, hpay, hflag⟩ :=
    processPoint_ok_cases hok
  cases hcase with
  | inl hm =>
    obtain ⟨hlk, hh1⟩ := hm
    subst hh1
    have hrlt : r < h0.next := by
      obtain ⟨q, hq, hq2⟩ := lookupRef_mem hlk
      exact hq2 ▸ htr q hq
    have hmemnew : ∀ x, s'.heap.mem x
        = if x = r then mergeDict (s.heap.mem r) p.id else s.heap.mem x := by
      intro x
      rw [hheap, Heap.mem_set]
    have hocnew : ∀ x, dictGet (s'.heap.mem x) "outcome"
        = dictGet (s.heap.mem x) "outcome" := by
      intro x
      rw [hmemnew x]
      by_cases hxr : x = r
      · subst hxr
        rw [if_pos rfl, mergeDict_get_outcome]
      · rw [if_neg hxr]
    have hnext : s'.heap.next = s.heap.next := by
      rw [hheap, Heap.next_set]
    refine ⟨?_, ?_, ?_, ?_, ?_⟩
    · rw [hnext]
      exact hinv.nextLe
    · intro x hx
      rw [hpay] at hx
      simp only [List.mem_append, List.mem_singleton, not_or] at hx
      rw [hmemnew x, if_neg hx.2]
      exact hinv.frame x hx.1
    · intro x hx
      rw [hpay] at hx
      rw [hnext]
      rcases List.mem_append.mp hx with hx1 | hx2
      · exact hinv.bound x hx1
      · have : x = r := by simpa using hx2
        subst this
        exact Nat.lt_of_lt_of_le hrlt hinv.nextLe
    · intro x hx
      rw [hpay] at hx
      by_cases hxp : x ∈ s.payload
      · obtain ⟨d0, horig, hminv⟩ := hinv.entries x hxp
        refine ⟨d0, horig, ?_⟩
        rw [hmemnew x]
        by_cases hxr : x = r
        · subst hxr
          rw [if_pos rfl]
          exact MergedInv_step d0 (s.heap.mem x) p.id hminv
        · rw [if_neg hxr]
          exact hminv
      · have hxr : x = r := by
          rcases List.mem_append.mp hx with hx1 | hx2
          · exact absurd hx1 hxp
          · simpa using hx2
        subst hxr
        refine ⟨h0.mem x, Or.inl ⟨lookupRef_mem hlk, rfl⟩, ?_⟩
        rw [hmemnew x, if_pos rfl, hinv.frame x hxp]
        exact MergedInv_init (h0.mem x) p.id
    · rw [hflag, hpay]
      by_cases hp : oc = Value.vStr "Passed"
      · rw [if_pos hp, hinv.flagIff]
        constructor
        · rintro (h | ⟨x, hx, hxo⟩)
          · exact Or.inl h
          · refine Or.inr ⟨x, List.mem_append_left _ hx, ?_⟩
            rw [hocnew x]
            exact hxo
        · rintro (h | ⟨x, hx, hxo⟩)
          · exact Or.inl h
          · rw [hocnew x] at hxo
            rcases List.mem_append.mp hx with hx1 | hx2
            · exact Or.inr ⟨x, hx1, hxo⟩
            · have : x = r := by simpa using hx2
              subst this
              rw [hoc, hp] at hxo
              exact absurd rfl hxo
      · rw [if_neg hp]
        refine ⟨fun _ => Or.inr ⟨r, List.mem_append_right _ (by simp), ?_⟩,
          fun _ => rfl⟩
        rw [hocnew r, hoc]
        intro hcontra
        exact hp (by injection hcontra)
  | inr hm =>
    obtain ⟨hlk, hr, hh1⟩ := hm
    subst hh1
    subst hr
    have hmem1 : ((s.heap.alloc defaultResult).1).mem s.heap.next
        = defaultResult := by
      rw [Heap.mem_alloc, if_pos rfl]
    rw [hmem1] at hoc hheap
    have hoc' : oc = Value.vStr "NotExecuted" := by
      simp [defaultResult, dictGet] at hoc
      exact hoc.symm
    subst hoc'
    have hmemnew : ∀ x, s'.heap.mem x
        = if x = s.heap.next then mergeDict defaultResult p.id
          else s.heap.mem x := by
      intro x
      rw [hheap, Heap.mem_set]
      by_cases hxr : x = s.heap.next
      · rw [if_pos hxr, if_pos hxr]
      · rw [if_neg hxr, if_neg hxr, Heap.mem_alloc, if_neg hxr]
    have hnext : s'.heap.next = s.heap.next + 1 := by
      rw [hheap, Heap.next_set, Heap.next_alloc]
    have hfl : s'.is_failure = true := by
      rw [hflag, if_neg (by decide)]
    refine ⟨?_, ?_, ?_, ?_, ?_⟩
    · rw [hnext]
      exact Nat.le_succ_of_le hinv.nextLe
    · intro x hx
      rw [hpay] at hx
      simp only [List.mem_append, List.mem_singleton, not_or] at hx
      rw [hmemnew x, if_neg hx.2]
      exact hinv.frame x hx.1
    · intro x hx
      rw [hpay] at hx
      rw [hnext]
      rcases List.mem_append.mp hx with hx1 | hx2
      · exact Nat.lt_succ_of_lt (hinv.bound x hx1)
      · have : x = s.heap.next := by simpa using hx2
        subst this
        exact Nat.lt_succ_self _
    · intro x hx
      rw [hpay] at hx
      rcases List.mem_append.mp hx with hx1 | hx2
      · obtain ⟨d0, horig, hminv⟩ := hinv.entries x hx1
        refine ⟨d0, horig, ?_⟩
        have hxne : x ≠ s.heap.next := Nat.ne_of_lt (hinv.bound x hx1)
        rw [hmemnew x, if_neg hxne]
        exact hminv
      · have : x = s.heap.next := by simpa using hx2
        subst this
        refine ⟨defaultResult, Or.inr ⟨hinv.nextLe, rfl⟩, ?_⟩
        rw [hmemnew s.heap.next, if_pos rfl]
        exact MergedInv_init defaultResult p.id
    · rw [hfl, hpay]
      refine ⟨fun _ => Or.inr
        ⟨s.heap.next, List.mem_append_right _ (by simp), ?_⟩, fun _ => rfl⟩
      rw [hmemnew s.heap.next, if_pos rfl, mergeDict_get_outcome]
      simp [defaultResult, dictGet]

theorem Inv_loop {test_results : List (String × Nat)} {h0 : Heap}
    {fl0 : Bool} {ps : List TestPoint} {s s' : PState}
    (htr : ∀ q ∈ test_results, q.2 < h0.next)
    (hinv : Inv test_results h0 fl0 s)
    (hok : processLoop test_results s ps = Except.ok s') :
    Inv test_results h0 fl0 s' := by
  induction ps generalizing s with
  | nil =>
    cases hok
    exact hinv
  | cons p ps ih =>
    simp only [processLoop] at hok
    cases hstep : processPoint test_results p s with
    | error e => rw [hstep] at hok; cases hok
    | ok s1 =>
      rw [hstep] at hok
      exact ih (Inv_step htr hinv hstep) hok

theorem processPoint_next_mono {test_results : List (String × Nat)}
    {p : TestPoint} {s s' : PState}
    (hok : processPoint test_results p s = Except.ok s') :
    s.heap.next ≤ s'.heap.next := by
  obtain ⟨h1, r, hcase, oc, _, hheap, _, _⟩ := processPoint_ok_cases hok
  cases hcase with
  | inl hm =>
    rw [hheap, Heap.next_set, hm.2]
  | inr hm =>
    rw [hheap, Heap.next_set, hm.2.2, Heap.next_alloc]
    exact Nat.le_succ _

theorem processPoint_flag_mono {test_results : List (String × Nat)}
    {p : TestPoint} {s s' : PState}
    (hok : processPoint test_results p s = Except.ok s')
    (hfl : s.is_failure = true) : s'.is_failure = true := by
  obtain ⟨h1, r, _, oc, _, _, _, hflag⟩ := processPoint_ok_cases hok
  rw [hflag]
  by_cases hp : oc = Value.vStr "Passed"
  · rw [if_pos hp]
    exact hfl
  · rw [if_neg hp]

theorem processLoop_next_mono {test_results : List (String × Nat)}
    {ps : List TestPoint} {s s' : PState}
    (hok : processLoop test_results s ps = Except.ok s') :
    s.heap.next ≤ s'.heap.next := by
  induction ps generalizing s with
  | nil =>
    cases hok
    exact Nat.le_refl _
  | cons p ps ih =>
    simp only [processLoop] at hok
    cases hstep : processPoint test_results p s with
    | error e => rw [hstep] at hok; cases hok
    | ok s1 =>
      rw [hstep] at hok
      exact Nat.le_trans (processPoint_next_mono hstep) (ih hok)

theorem processLoop_flag_mono {test_results : List (String × Nat)}
    {ps : List TestPoint} {s s' : PState}
    (hok : processLoop test_results s ps = Except.ok s')
    (hfl : s.is_failure = true) : s'.is_failure = true := by
  induction ps generalizing s with
  | nil =>
    cases hok
    exact hfl
  | cons p ps ih =>
    simp only [processLoop] at hok
    cases hstep : processPoint test_results p s with
    | error e => rw [hstep] at hok; cases hok
    | ok s1 =>
      rw [hstep] at hok
      exact ih hok (processPoint_flag_mono hstep hfl)

theorem processPoint_frame_ne {test_results : List (String × Nat)}
    {p : TestPoint} {s s' : PState} {x : Nat}
    (hok : processPoint test_results p s = Except.ok s')
    (hx1 : lookupRef test_results p.testCaseId ≠ some x)
    (hx2 : x < s.heap.next) : s'.heap.mem x = s.heap.mem x := by
  obtain ⟨h1, r, hcase, oc, _, hheap, _, _⟩ := processPoint_ok_cases hok
  cases hcase with
  | inl hm =>
    obtain ⟨hlk, hh1⟩ := hm
    subst hh1
    have hxr : x ≠ r := fun h => hx1 (h ▸ hlk)
    rw [hheap, Heap.mem_set, if_neg hxr]
  | inr hm =>
    obtain ⟨hlk, hr, hh1⟩ := hm
    subst hh1
    subst hr
    have hxr : x ≠ s.heap.next := Nat.ne_of_lt hx2
    rw [hheap, Heap.mem_set, if_neg hxr, Heap.mem_alloc, if_neg hxr]

theorem processLoop_frame {test_results : List (String × Nat)}
    {ps : List TestPoint} {s s' : PState} {x : Nat}
    (hok : processLoop test_results s ps = Except.ok s')
    (hx1 : ∀ p ∈ ps, lookupRef test_results p.testCaseId ≠ some x)
    (hx2 : x < s.heap.next) : s'.heap.mem x = s.heap.mem x := by
  induction ps generalizing s with
  | nil =>
    cases hok
    rfl
  | cons p ps ih =>
    simp only [processLoop] at hok
    cases hstep : processPoint test_results p s with
    | error e => rw [hstep] at hok; cases hok
    | ok s1 =>
      rw [hstep] at hok
      have h1 := processPoint_frame_ne hstep (hx1 p (by simp)) hx2
      have h2 := ih hok (fun q hq => hx1 q (by simp [hq]))
        (Nat.lt_of_lt_of_le hx2 (processPoint_next_mono hstep))
      rw [h2, h1]

theorem processLoop_payload {test_results : List (String × Nat)}
    {ps : List TestPoint} {s s' : PState}
    (hok : processLoop test_results s ps = Except.ok s') :
    ∃ tail, s'.payload = s.payload ++ tail ∧ tail.length = ps.length ∧
      ∀ i p r, ps.get? i = some p →
        lookupRef test_results p.testCaseId = some r →
        tail.get? i = some r := by
  induction ps generalizing s with
  | nil =>
    cases hok
    exact ⟨[], by simp, rfl, fun i p r h _ => by cases h⟩
  | cons p ps ih =>
    simp only [processLoop] at hok
    cases hstep : processPoint test_results p s with
    | error e => rw [hstep] at hok; cases hok
    | ok s1 =>
      rw [hstep] at hok
      obtain ⟨h1, r0, hcase, oc, _, _, hpay, _⟩ := processPoint_ok_cases hstep
      obtain ⟨tail1, htail1, hlen1, hidx1⟩ := ih hok
      refine ⟨r0 :: tail1, ?_, by simp [hlen1], ?_⟩
      · rw [htail1, hpay]
        simp
      · intro i q r hq hlk
        cases i with
        | zero =>
          simp only [List.get?] at hq
          cases hq
          cases hcase with
          | inl hm =>
            rw [hm.1] at hlk
            cases hlk
            rfl
          | inr hm =>
            rw [hm.1] at hlk
            cases hlk
        | succ i =>
          simp only [List.get?] at hq ⊢
          exact hidx1 i q r hq hlk

theorem processLoop_append {test_results : List (String × Nat)}
    {as bs : List TestPoint} {s s' : PState}
    (hok : processLoop test_results s (as ++ bs) = Except.ok s') :
    ∃ s1, processLoop test_results s as = Except.ok s1 ∧
      processLoop test_results s1 bs = Except.ok s' := by
  induction as generalizing s with
  | nil => exact ⟨s, rfl, hok⟩
  | cons p as ih =>
    simp only [List.cons_append, processLoop] at hok ⊢
    cases hstep : processPoint test_results p s with
    | error e => rw [hstep] at hok; cases hok
    | ok s1 =>
      rw [hstep] at hok
      exact ih hok

/-- A successful `process_test_results` run, seen through the projections. -/
theorem process_ok_elim {test_results : List (String × Nat)}
    {points : List TestPoint} {h0 : Heap} {fl0 : Bool}
    (hok : processOk test_results points h0 fl0 = true) :
    ∃ s', processLoop test_results ⟨h0, fl0, []⟩ points = Except.ok s' ∧
      processPayload test_results points h0 fl0 = s'.payload ∧
      processHeap test_results points h0 fl0 = s'.heap ∧
      processFlag test_results points h0 fl0 = s'.is_failure := by
  unfold processOk process_test_results at hok
  cases hloop : processLoop test_results ⟨h0, fl0, []⟩ points with
  | error e => rw [hloop] at hok; cases hok
  | ok s' =>
    refine ⟨s', rfl, ?_, ?_, ?_⟩ <;>
      simp [processPayload, processHeap, processFlag, process_test_results,
        hloop]

/-! ### Auxiliary list lemmas -/

theorem findq_append_first {α : Type} (p : α → Bool) (pre suf : List α)
    (q : α) (hq : p q = true) (hpre : ∀ x ∈ pre, p x = false) :
    (pre ++ q :: suf).find? p = some q := by
  induction pre with
  | nil => simp [List.find?, hq]
  | cons a pre ih =>
    simp only [List.cons_append, List.find?, hpre a (by simp)]
    exact ih (fun x hx => hpre x (by simp [hx]))

theorem getq_append_cons {α : Type} (pre suf : List α) (a : α) :
    (pre ++ a :: suf).get? pre.length = some a := by
  induction pre with
  | nil => rfl
  | cons x pre ih => simpa using ih

theorem getq_append_cons_add {α : Type} (pre suf : List α) (a : α) (n : Nat) :
    (pre ++ a :: suf).get? (pre.length + 1 + n) = suf.get? n := by
  induction pre with
  | nil =>
    simp only [List.length_nil, List.nil_append]
    have h1 : 0 + 1 + n = n + 1 := by omega
    rw [h1]
    rfl
  | cons x pre ih =>
    simp only [List.length_cons, List.cons_append]
    have h1 : pre.length + 1 + 1 + n = (pre.length + 1 + n) + 1 := by omega
    rw [h1]
    simpa using ih

theorem lookupRef_append_ne (test_results : List (String × Nat)) (k : String)
    (r : Nat) (key : String) (h : key ≠ k) :
    lookupRef (test_results ++ [(k, r)]) key = lookupRef test_results key := by
  induction test_results with
  | nil =>
    simp only [List.nil_append, lookupRef, List.find?]
    rw [decide_eq_false (fun hk => h hk.symm)]
  | cons q tr ih =>
    simp only [lookupRef, List.cons_append, List.find?] at ih ⊢
    cases hq : decide (q.1 = key) with
    | true => rfl
    | false => exact ih

/-- Evaluating `mergeDict` on the freshly allocated default dict. -/
theorem mergeDict_defaultResult (pid : Nat) :
    mergeDict defaultResult pid
      = [("outcome", Value.vStr "NotExecuted"), ("id", Value.vNat pid),
         ("state", Value.vStr "Completed"), ("priority", Value.vNat 2),
         ("failureType", Value.vStr "New Issue")] := rfl

/-- When every placeholder's test case is matched and every mapped record's
outcome is `"Passed"`, the loop succeeds, never touches the flag, and keeps
all mapped outcomes `"Passed"`. -/
theorem processLoop_all_passed {test_results : List (String × Nat)}
    {ps : List TestPoint} {s : PState}
    (htr : ∀ q ∈ test_results, q.2 < s.heap.next)
    (hpass : ∀ q ∈ test_results,
      dictGet (s.heap.mem q.2) "outcome" = some (Value.vStr "Passed"))
    (hmatch : ∀ p ∈ ps, (lookupRef test_results p.testCaseId).isSome = true) :
    ∃ s', processLoop test_results s ps = Except.ok s' ∧
      s'.is_failure = s.is_failure := by
  induction ps generalizing s with
  | nil => exact ⟨s, rfl, rfl⟩
  | cons p ps ih =>
    have hlk : ∃ r, lookupRef test_results p.testCaseId = some r := by
      cases hl : lookupRef test_results p.testCaseId with
      | none =>
        have := hmatch p (by simp)
        rw [hl] at this
        cases this
      | some r => exact ⟨r, rfl⟩
    obtain ⟨r, hlk⟩ := hlk
    obtain ⟨q, hq, hq2⟩ := lookupRef_mem hlk
    have houtcome : dictGet (s.heap.mem r) "outcome"
        = some (Value.vStr "Passed") := hq2 ▸ hpass q hq
    have hru : dictGet (resultUpdate (s.heap.mem r) p.id) "outcome"
        = some (Value.vStr "Passed") := by
      rw [resultUpdate_get_outcome, houtcome]
    have hstep : processPoint test_results p s = Except.ok
        ⟨s.heap.set r (mergeDict (s.heap.mem r) p.id), s.is_failure,
          s.payload ++ [r]⟩ := by
      simp only [processPoint, hlk]
      rw [hru]
      simp
    have hocnew : ∀ x, dictGet ((s.heap.set r
        (mergeDict (s.heap.mem r) p.id)).mem x) "outcome"
        = dictGet (s.heap.mem x) "outcome" := by
      intro x
      rw [Heap.mem_set]
      by_cases hxr : x = r
      · subst hxr
        rw [if_pos rfl, mergeDict_get_outcome]
      · rw [if_neg hxr]
    obtain ⟨s', hloop, hfl⟩ := ih
      (s := ⟨s.heap.set r (mergeDict (s.heap.mem r) p.id), s.is_failure,
        s.payload ++ [r]⟩)
      (by
        intro q' hq'
        rw [Heap.next_set]
        exact htr q' hq')
      (by
        intro q' hq'
        rw [hocnew q'.2]
        exact hpass q' hq')
      (fun p' hp' => hmatch p' (by simp [hp']))
    refine ⟨s', ?_, hfl⟩
    simp only [processLoop]
    rw [hstep]
    exact hloop

/-! ### Claims -/

/-- C5: plan and suite name resolution is a case-sensitive exact-match linear
scan in server order: the first element whose `name` equals the requested
name wins, and when no element matches a value error carrying the missing
name is raised. -/
theorem c5_name_resolution (plans : List TestPlan) (suites : List TestSuite)
    (plan_id : Nat) (n m : String) :
    (∀ pre q suf, plans = pre ++ q :: suf → q.name = n →
      (∀ x ∈ pre, x.name ≠ n) →
      get_test_plan_id plans n = Except.ok q.id) ∧
    ((∀ q ∈ plans, q.name ≠ n) →
      ∃ a b, get_test_plan_id plans n = Except.error (a ++ n ++ b)) ∧
    (∀ pre q suf, suites = pre ++ q :: suf → q.name = m →
      (∀ x ∈ pre, x.name ≠ m) →
      get_test_suite_id suites plan_id m = Except.ok q.id) ∧
    ((∀ q ∈ suites, q.name ≠ m) →
      ∃ a b, get_test_suite_id suites plan_id m
        = Except.error (a ++ m ++ b)) := by
  refine ⟨?_, ?_, ?_, ?_⟩
  · intro pre q suf hpl hq hpre
    subst hpl
    have hfind : (pre ++ q :: suf).find? (fun plan => plan.name = n)
        = some q :=
      findq_append_first _ pre suf q (by simp [hq])
        (fun x hx => by simp [hpre x hx])
    unfold get_test_plan_id
    rw [hfind]
  · intro hnone
    have hfind : plans.find? (fun plan => plan.name = n) = none :=
      List.find?_eq_none.mpr (fun x hx => by simp [hnone x hx])
    unfold get_test_plan_id
    rw [hfind]
    exact ⟨"Test plan '", "' not found", rfl⟩
  · intro pre q suf hpl hq hpre
    subst hpl
    have hfind : (pre ++ q :: suf).find? (fun suite => suite.name = m)
        = some q :=
      findq_append_first _ pre suf q (by simp [hq])
        (fun x hx => by simp [hpre x hx])
    unfold get_test_suite_id
    rw [hfind]
  · intro hnone
    have hfind : suites.find? (fun suite => suite.name = m) = none :=
      List.find?_eq_none.mpr (fun x hx => by simp [hnone x hx])
    unfold get_test_suite_id
    rw [hfind]
    refine ⟨"Test suite '", "' not found in plan " ++ toString plan_id, ?_⟩
    rw [← String.append_assoc]

theorem c5_name_resolution_witness :
    get_test_plan_id [⟨1, "A"⟩, ⟨2, "B"⟩] "B" = Except.ok 2 ∧
    (∃ a b, get_test_plan_id [⟨1, "A"⟩, ⟨2, "B"⟩] "C"
      = Except.error (a ++ "C" ++ b)) ∧
    get_test_suite_id [⟨7, "R"⟩, ⟨3, "S"⟩] 9 "S" = Except.ok 3 ∧
    (∃ a b, get_test_suite_id [⟨7, "R"⟩, ⟨3, "S"⟩] 9 "T"
      = Except.error (a ++ "T" ++ b)) := by
  refine ⟨?_, ?_, ?_, ?_⟩
  · exact (c5_name_resolution [⟨1, "A"⟩, ⟨2, "B"⟩] [] 0 "B" "").1
      [⟨1, "A"⟩] ⟨2, "B"⟩ [] rfl rfl (by decide)
  · exact (c5_name_resolution [⟨1, "A"⟩, ⟨2, "B"⟩] [] 0 "C" "").2.1
      (by decide)
  · exact (c5_name_resolution [] [⟨7, "R"⟩, ⟨3, "S"⟩] 9 "" "S").2.2.1
      [⟨7, "R"⟩] ⟨3, "S"⟩ [] rfl rfl (by decide)
  · exact (c5_name_resolution [] [⟨7, "R"⟩, ⟨3, "S"⟩] 9 "" "T").2.2.2
      (by decide)

/-- C6: `post_test_results` and `complete_test_run` raise exactly when the
PATCH response status is not 200, with a message containing the literal
status code and the response body text; on 200 they return normally. -/
theorem c6_patch_status (resp : HttpResponse) (fl : Bool) :
    (resp.status_code = 200 →
      post_test_results resp = Except.ok () ∧
      complete_test_run fl resp
        = Except.ok (if fl then "NeedsInvestigation" else "Completed")) ∧
    (resp.status_code ≠ 200 →
      (∃ a b, post_test_results resp
        = Except.error (a ++ toString resp.status_code ++ (b ++ resp.text))) ∧
      (∃ a b, complete_test_run fl resp
        = Except.error (a ++ toString resp.status_code ++ (b ++ resp.text)))) := by
  constructor
  · intro h200
    constructor
    · simp [post_test_results, h200]
    · simp [complete_test_run, h200]
  · intro hne
    constructor
    · refine ⟨"Unexpected Response while posting test results to ADO: "
        ++ "status_code: ", " response_text: ", ?_⟩
      unfold post_test_results
      rw [if_pos hne]
      rw [String.append_assoc, String.append_assoc]
    · refine ⟨"Unexpected Response while completing the test run in ADO: "
        ++ "status_code: ", " response_text: ", ?_⟩
      unfold complete_test_run
      rw [if_pos hne]
      rw [String.append_assoc, String.append_assoc]

theorem c6_patch_status_witness :
    post_test_results ⟨200, "ok"⟩ = Except.ok () ∧
    complete_test_run true ⟨200, "ok"⟩ = Except.ok "NeedsInvestigation" ∧
    (∃ a b, post_test_results ⟨500, "boom"⟩
      = Except.error (a ++ toString (500 : Nat) ++ (b ++ "boom"))) ∧
    (∃ a b, complete_test_run false ⟨500, "boom"⟩
      = Except.error (a ++ toString (500 : Nat) ++ (b ++ "boom"))) := by
  refine ⟨?_, ?_, ?_, ?_⟩
  · exact ((c6_patch_status ⟨200, "ok"⟩ true).1 rfl).1
  · exact ((c6_patch_status ⟨200, "ok"⟩ true).1 rfl).2
  · exact ((c6_patch_status ⟨500, "boom"⟩ true).2 (by decide)).1
  · exact ((c6_patch_status ⟨500, "boom"⟩ false).2 (by decide)).2

/-- C1: starting from an unset flag, if some record produced by
`process_test_results` has outcome other than `"Passed"` then the failure
flag is set and `complete_test_run` patches `"NeedsInvestigation"`; if the
flag ends unset it patches `"Completed"`; and a set flag is never cleared by
processing. -/
theorem c1_failure_flag_completion (test_results : List (String × Nat))
    (points : List TestPoint) (h0 : Heap) (resp : HttpResponse)
    (htr : ∀ q ∈ test_results, q.2 < h0.next)
    (hok : processOk test_results points h0 false = true)
    (h200 : resp.status_code = 200) :
    ((∃ r ∈ processPayload test_results points h0 false,
        dictGet ((processHeap test_results points h0 false).mem r) "outcome"
          ≠ some (Value.vStr "Passed")) →
      processFlag test_results points h0 false = true ∧
      complete_test_run (processFlag test_results points h0 false) resp
        = Except.ok "NeedsInvestigation") ∧
    (processFlag test_results points h0 false = false →
      complete_test_run (processFlag test_results points h0 false) resp
        = Except.ok "Completed") ∧
    (processOk test_results points h0 true = true →
      processFlag test_results points h0 true = true) := by
  obtain ⟨s', hloop, hpl, hh, hfl⟩ := process_ok_elim hok
  have hinv := Inv_loop htr (Inv_init test_results h0 false) hloop
  refine ⟨?_, ?_, ?_⟩
  · rintro ⟨r, hr, hro⟩
    have hs : s'.is_failure = true := by
      rw [hinv.flagIff]
      right
      rw [hpl] at hr
      rw [hh] at hro
      exact ⟨r, hr, hro⟩
    have hfl' : processFlag test_results points h0 false = true := by
      rw [hfl, hs]
    refine ⟨hfl', ?_⟩
    rw [hfl']
    simp [complete_test_run, h200]
  · intro hfalse
    rw [hfalse]
    simp [complete_test_run, h200]
  · intro hok2
    obtain ⟨s2, hloop2, _, _, hfl2⟩ := process_ok_elim hok2
    rw [hfl2]
    exact processLoop_flag_mono hloop2 rfl

theorem c1_failure_flag_completion_witness :
    processFlag [("123", 0)] [⟨55, "123"⟩]
      ⟨fun r => if r = 0 then [("outcome", Value.vStr "Failed")] else [], 1⟩
      false = true ∧
    complete_test_run (processFlag [("123", 0)] [⟨55, "123"⟩]
      ⟨fun r => if r = 0 then [("outcome", Value.vStr "Failed")] else [], 1⟩
      false) ⟨200, "ok"⟩ = Except.ok "NeedsInvestigation" :=
  (c1_failure_flag_completion [("123", 0)] [⟨55, "123"⟩]
      ⟨fun r => if r = 0 then [("outcome", Value.vStr "Failed")] else [], 1⟩
      ⟨200, "ok"⟩ (by decide) (by decide) rfl).1
    ⟨0, by decide, by decide⟩

/-- C2: every record in the returned payload has `state = "Completed"` and a
`priority` key whose value is the original record's priority when present
and 2 otherwise (the original record being the caller's dict for a matched
test case id and the `NotExecuted` default for an unmatched point). -/
theorem c2_state_priority (test_results : List (String × Nat))
    (points : List TestPoint) (h0 : Heap) (fl0 : Bool)
    (htr : ∀ q ∈ test_results, q.2 < h0.next)
    (hok : processOk test_results points h0 fl0 = true) :
    ∀ r ∈ processPayload test_results points h0 fl0,
      dictGet ((processHeap test_results points h0 fl0).mem r) "state"
        = some (Value.vStr "Completed") ∧
      ∃ d0, (((∃ q ∈ test_results, q.2 = r) ∧ d0 = h0.mem r) ∨
          (h0.next ≤ r ∧ d0 = defaultResult)) ∧
        dictGet ((processHeap test_results points h0 fl0).mem r) "priority"
          = some ((dictGet d0 "priority").getD (Value.vNat 2)) := by
  intro r hr
  obtain ⟨s', hloop, hpl, hh, _⟩ := process_ok_elim hok
  have hinv := Inv_loop htr (Inv_init test_results h0 fl0) hloop
  rw [hpl] at hr
  obtain ⟨d0, horig, hminv⟩ := hinv.entries r hr
  rw [hh]
  exact ⟨hminv.2.1, d0, horig, hminv.2.2.1⟩

theorem c2_state_priority_witness :
    dictGet ((processHeap [("a", 0), ("b", 1)] [⟨10, "a"⟩, ⟨11, "b"⟩]
      ⟨fun r => if r = 0 then
          [("outcome", Value.vStr "Passed"), ("priority", Value.vNat 1)]
        else if r = 1 then [("outcome", Value.vStr "Failed")] else [], 2⟩
      false).mem 0) "state" = some (Value.vStr "Completed") :=
  (c2_state_priority [("a", 0), ("b", 1)] [⟨10, "a"⟩, ⟨11, "b"⟩]
      ⟨fun r => if r = 0 then
          [("outcome", Value.vStr "Passed"), ("priority", Value.vNat 1)]
        else if r = 1 then [("outcome", Value.vStr "Failed")] else [], 2⟩
      false (by decide) (by decide) 0 (by decide)).1

/-- C3: every payload record whose outcome is not `"Passed"` carries a
`failureType` key — the original record's value when supplied and
`"New Issue"` otherwise; records whose outcome is `"Passed"` are not given
one (their `failureType` lookup is exactly the original record's). -/
theorem c3_failure_type (test_results : List (String × Nat))
    (points : List TestPoint) (h0 : Heap) (fl0 : Bool)
    (htr : ∀ q ∈ test_results, q.2 < h0.next)
    (hok : processOk test_results points h0 fl0 = true) :
    ∀ r ∈ processPayload test_results points h0 fl0,
      ∃ d0, (((∃ q ∈ test_results, q.2 = r) ∧ d0 = h0.mem r) ∨
          (h0.next ≤ r ∧ d0 = defaultResult)) ∧
        (dictGet ((processHeap test_results points h0 fl0).mem r) "outcome"
            ≠ some (Value.vStr "Passed") →
          dictGet ((processHeap test_results points h0 fl0).mem r)
              "failureType"
            = some ((dictGet d0 "failureType").getD
                (Value.vStr "New Issue"))) ∧
        (dictGet ((processHeap test_results points h0 fl0).mem r) "outcome"
            = some (Value.vStr "Passed") →
          dictGet ((processHeap test_results points h0 fl0).mem r)
              "failureType"
            = dictGet d0 "failureType") := by
  intro r hr
  obtain ⟨s', hloop, hpl, hh, _⟩ := process_ok_elim hok
  have hinv := Inv_loop htr (Inv_init test_results h0 fl0) hloop
  rw [hpl] at hr
  obtain ⟨d0, horig, hminv⟩ := hinv.entries r hr
  rw [hh]
  refine ⟨d0, horig, ?_, ?_⟩
  · intro hne
    rw [hminv.1] at hne
    exact hminv.2.2.2.1 hne
  · intro heq
    rw [hminv.1] at heq
    exact hminv.2.2.2.2.1 heq

theorem c3_failure_type_witness :
    dictGet ((processHeap [] [⟨77, "999"⟩] ⟨fun _ => [], 0⟩ false).mem 0)
      "failureType" = some (Value.vStr "New Issue") := by
  obtain ⟨d0, horig, hfail, _⟩ :=
    c3_failure_type [] [⟨77, "999"⟩] ⟨fun _ => [], 0⟩ false
      (by decide) (by decide) 0 (by decide)
  rcases horig with ⟨⟨q, hq, _⟩, _⟩ | ⟨_, hd0⟩
  · cases hq
  · subst hd0
    simpa using hfail (by decide)

/-- C4 counterexample: with an empty `test_results` mapping (so no input
result's outcome violates `"Passed"`) but one unmatched server placeholder,
the flag IS set and the run is completed `"NeedsInvestigation"`, refuting
the claim as stated. -/
theorem c4_counterexample :
    processFlag [] [⟨77, "999"⟩] ⟨fun _ => [], 0⟩ false = true ∧
    complete_test_run
        (processFlag [] [⟨77, "999"⟩] ⟨fun _ => [], 0⟩ false) ⟨200, "ok"⟩
      = Except.ok "NeedsInvestigation" := by
  constructor
  · decide
  · rfl

/-- C4 (amended): if every mapped record's outcome is `"Passed"` AND every
server placeholder's test case id has a matching entry in `test_results`,
then processing succeeds, the failure flag is never set, and
`complete_test_run` patches `"Completed"`.  (The extra matching hypothesis
is forced: an unmatched placeholder defaults to `"NotExecuted"` and sets
the flag even when no input outcome violates `"Passed"`.) -/
theorem c4_all_passed_completed (test_results : List (String × Nat))
    (points : List TestPoint) (h0 : Heap) (resp : HttpResponse)
    (htr : ∀ q ∈ test_results, q.2 < h0.next)
    (hmatch : ∀ p ∈ points,
      (lookupRef test_results p.testCaseId).isSome = true)
    (hpass : ∀ q ∈ test_results,
      dictGet (h0.mem q.2) "outcome" = some (Value.vStr "Passed"))
    (h200 : resp.status_code = 200) :
    processOk test_results points h0 false = true ∧
    processFlag test_results points h0 false = false ∧
    complete_test_run (processFlag test_results points h0 false) resp
      = Except.ok "Completed" := by
  obtain ⟨s', hloop, hfl⟩ :=
    processLoop_all_passed (s := ⟨h0, false, []⟩) htr hpass hmatch
  have hok : processOk test_results points h0 false = true := by
    unfold processOk process_test_results
    rw [hloop]
  have hflag : processFlag test_results points h0 false = false := by
    unfold processFlag process_test_results
    rw [hloop]
    exact hfl
  refine ⟨hok, hflag, ?_⟩
  rw [hflag]
  simp [complete_test_run, h200]

theorem c4_all_passed_completed_witness :
    processFlag [("123", 0)] [⟨55, "123"⟩]
      ⟨fun r => if r = 0 then [("outcome", Value.vStr "Passed")] else [], 1⟩
      false = false ∧
    complete_test_run (processFlag [("123", 0)] [⟨55, "123"⟩]
      ⟨fun r => if r = 0 then [("outcome", Value.vStr "Passed")] else [], 1⟩
      false) ⟨200, "ok"⟩ = Except.ok "Completed" := by
  have h := c4_all_passed_completed [("123", 0)] [⟨55, "123"⟩]
    ⟨fun r => if r = 0 then [("outcome", Value.vStr "Passed")] else [], 1⟩
    ⟨200, "ok"⟩ (by decide) (by decide) (by decide) rfl
  exact ⟨h.2.1, h.2.2⟩

/-- C7: a server placeholder whose test case id matches no key of the local
mapping yields a payload record that is exactly the `"NotExecuted"` default
overlaid with `id`, `state`, `priority` 2 and `failureType "New Issue"`, and
the run completes `"NeedsInvestigation"`. -/
theorem c7_unmatched_point (test_results : List (String × Nat))
    (points pre suf : List TestPoint) (p : TestPoint) (h0 : Heap)
    (fl0 : Bool) (resp : HttpResponse)
    (htr : ∀ q ∈ test_results, q.2 < h0.next)
    (hpts : points = pre ++ p :: suf)
    (hun : lookupRef test_results p.testCaseId = none)
    (hok : processOk test_results points h0 fl0 = true)
    (h200 : resp.status_code = 200) :
    ∃ r, (processPayload test_results points h0 fl0).get? pre.length
        = some r ∧
      h0.next ≤ r ∧
      (processHeap test_results points h0 fl0).mem r
        = [("outcome", Value.vStr "NotExecuted"), ("id", Value.vNat p.id),
           ("state", Value.vStr "Completed"), ("priority", Value.vNat 2),
           ("failureType", Value.vStr "New Issue")] ∧
      processFlag test_results points h0 fl0 = true ∧
      complete_test_run (processFlag test_results points h0 fl0) resp
        = Except.ok "NeedsInvestigation" := by
  obtain ⟨s', hloop, hpl, hh, hfl⟩ := process_ok_elim hok
  subst hpts
  obtain ⟨s1, hpre, hrest⟩ := processLoop_append hloop
  simp only [processLoop] at hrest
  cases hstep : processPoint test_results p s1 with
  | error e => rw [hstep] at hrest; cases hrest
  | ok s2 =>
    rw [hstep] at hrest
    obtain ⟨h1, r, hcase, oc, hoc, hheap, hpay, hflag⟩ :=
      processPoint_ok_cases hstep
    cases hcase with
    | inl hm =>
      rw [hm.1] at hun
      cases hun
    | inr hm =>
      obtain ⟨_, hr, hh1⟩ := hm
      subst hh1
      subst hr
      have hmem1 : ((s1.heap.alloc defaultResult).1).mem s1.heap.next
          = defaultResult := by
        rw [Heap.mem_alloc, if_pos rfl]
      rw [hmem1] at hoc hheap
      have hoc' : oc = Value.vStr "NotExecuted" := by
        simp [defaultResult, dictGet] at hoc
        exact hoc.symm
      subst hoc'
      have hs2mem : s2.heap.mem s1.heap.next
          = mergeDict defaultResult p.id := by
        rw [hheap, Heap.mem_set, if_pos rfl]
      have hs2next : s2.heap.next = s1.heap.next + 1 := by
        rw [hheap, Heap.next_set, Heap.next_alloc]
      have hs2flag : s2.is_failure = true := by
        rw [hflag, if_neg (by decide)]
      have hnext1 : h0.next ≤ s1.heap.next := processLoop_next_mono hpre
      have hfr : s'.heap.mem s1.heap.next = s2.heap.mem s1.heap.next := by
        refine processLoop_frame hrest ?_ ?_
        · intro q hq hcontra
          obtain ⟨q', hq', hq2⟩ := lookupRef_mem hcontra
          have hlt := htr q' hq'
          rw [hq2] at hlt
          exact absurd hnext1 (Nat.not_le.mpr hlt)
        · rw [hs2next]
          exact Nat.lt_succ_self _
      obtain ⟨tailp, htailp, hlenp, _⟩ := processLoop_payload hpre
      obtain ⟨tails, htails, _, _⟩ := processLoop_payload hrest
      refine ⟨s1.heap.next, ?_, hnext1, ?_, ?_, ?_⟩
      · rw [hpl, htails, hpay, htailp]
        have hshape : (([] : List Nat) ++ tailp) ++ [s1.heap.next] ++ tails
            = tailp ++ s1.heap.next :: tails := by simp
        rw [hshape, ← hlenp]
        exact getq_append_cons tailp tails s1.heap.next
      · rw [hh, hfr, hs2mem, mergeDict_defaultResult]
      · rw [hfl]
        exact processLoop_flag_mono hrest hs2flag
      · have hflagT : processFlag test_results
            (pre ++ p :: suf) h0 fl0 = true := by
          rw [hfl]
          exact processLoop_flag_mono hrest hs2flag
        rw [hflagT]
        simp [complete_test_run, h200]

theorem c7_unmatched_point_witness :
    processFlag [] [⟨77, "999"⟩] ⟨fun _ => [], 0⟩ false = true ∧
    complete_test_run
        (processFlag [] [⟨77, "999"⟩] ⟨fun _ => [], 0⟩ false) ⟨200, "y"⟩
      = Except.ok "NeedsInvestigation" := by
  obtain ⟨r, _, _, _, hflagW, hcompW⟩ :=
    c7_unmatched_point [] [⟨77, "999"⟩] [] [] ⟨77, "999"⟩
      ⟨fun _ => [], 0⟩ false ⟨200, "y"⟩ (by decide) rfl rfl (by decide) rfl
  exact ⟨hflagW, hcompW⟩

/-- The loop never consults a mapping entry whose key matches no processed
placeholder. -/
theorem processLoop_irrelevant_entry (test_results : List (String × Nat))
    (k : String) (x : Nat) {ps : List TestPoint} {s : PState}
    (hk : ∀ p ∈ ps, p.testCaseId ≠ k) :
    processLoop (test_results ++ [(k, x)]) s ps
      = processLoop test_results s ps := by
  induction ps generalizing s with
  | nil => rfl
  | cons p ps ih =>
    have hpoint : processPoint (test_results ++ [(k, x)]) p s
        = processPoint test_results p s := by
      unfold processPoint
      rw [lookupRef_append_ne test_results k x p.testCaseId (hk p (by simp))]
    simp only [processLoop, hpoint]
    cases hstep : processPoint test_results p s with
    | error e => rfl
    | ok s1 => exact ih (fun q hq => hk q (by simp [hq]))

/-- C8: a `test_results` entry whose test case id matches no server
placeholder is silently dropped — adding it changes neither the payload, nor
the heap, nor the failure flag. -/
theorem c8_unmatched_inputs_dropped (test_results : List (String × Nat))
    (k : String) (x : Nat) (points : List TestPoint) (h0 : Heap) (fl0 : Bool)
    (hk : ∀ p ∈ points, p.testCaseId ≠ k) :
    process_test_results (test_results ++ [(k, x)]) points h0 fl0
      = process_test_results test_results points h0 fl0 ∧
    processPayload (test_results ++ [(k, x)]) points h0 fl0
      = processPayload test_results points h0 fl0 ∧
    processFlag (test_results ++ [(k, x)]) points h0 fl0
      = processFlag test_results points h0 fl0 := by
  have hloop := processLoop_irrelevant_entry test_results k x
    (s := ⟨h0, fl0, []⟩) hk
  refine ⟨?_, ?_, ?_⟩
  · unfold process_test_results
    rw [hloop]
  · unfold processPayload process_test_results
    rw [hloop]
  · unfold processFlag process_test_results
    rw [hloop]

theorem c8_unmatched_inputs_dropped_witness :
    processPayload [("123", 0), ("zzz", 1)] [⟨55, "123"⟩]
      ⟨fun r => if r = 0 then [("outcome", Value.vStr "Passed")]
        else [("outcome", Value.vStr "Failed")], 2⟩ false
      = processPayload [("123", 0)] [⟨55, "123"⟩]
      ⟨fun r => if r = 0 then [("outcome", Value.vStr "Passed")]
        else [("outcome", Value.vStr "Failed")], 2⟩ false ∧
    processFlag [("123", 0), ("zzz", 1)] [⟨55, "123"⟩]
      ⟨fun r => if r = 0 then [("outcome", Value.vStr "Passed")]
        else [("outcome", Value.vStr "Failed")], 2⟩ false
      = processFlag [("123", 0)] [⟨55, "123"⟩]
      ⟨fun r => if r = 0 then [("outcome", Value.vStr "Passed")]
        else [("outcome", Value.vStr "Failed")], 2⟩ false := by
  have h := c8_unmatched_inputs_dropped [("123", 0)] "zzz" 1 [⟨55, "123"⟩]
    ⟨fun r => if r = 0 then [("outcome", Value.vStr "Passed")]
      else [("outcome", Value.vStr "Failed")], 2⟩ false (by decide)
  exact ⟨h.2.1, h.2.2⟩

/-- C9: `process_test_results` works in place: the payload entry for a
matched placeholder is the very reference the mapping holds for that test
case id, and on such a dict only the keys `id`, `state`, `priority` and
`failureType` are added or overwritten — every other key reads as in the
caller's original dict. -/
theorem c9_in_place_mutation (test_results : List (String × Nat))
    (points : List TestPoint) (h0 : Heap) (fl0 : Bool)
    (htr : ∀ q ∈ test_results, q.2 < h0.next)
    (hok : processOk test_results points h0 fl0 = true) :
    (∀ i p r, points.get? i = some p →
      lookupRef test_results p.testCaseId = some r →
      (processPayload test_results points h0 fl0).get? i = some r) ∧
    (∀ r ∈ processPayload test_results points h0 fl0,
      (∃ q ∈ test_results, q.2 = r) →
      ∀ key, key ≠ "id" → key ≠ "state" → key ≠ "priority" →
        key ≠ "failureType" →
        dictGet ((processHeap test_results points h0 fl0).mem r) key
          = dictGet (h0.mem r) key) := by
  obtain ⟨s', hloop, hpl, hh, _⟩ := process_ok_elim hok
  have hinv := Inv_loop htr (Inv_init test_results h0 fl0) hloop
  constructor
  · intro i p r hi hlk
    obtain ⟨tail, htail, _, hidx⟩ := processLoop_payload hloop
    rw [hpl, htail]
    simpa using hidx i p r hi hlk
  · intro r hr hq key h1 h2 h3 h4
    rw [hpl] at hr
    obtain ⟨d0, horig, hminv⟩ := hinv.entries r hr
    have hd0 : d0 = h0.mem r := by
      rcases horig with ⟨_, hd⟩ | ⟨hge, _⟩
      · exact hd
      · obtain ⟨q, hq', hq2⟩ := hq
        have hlt := htr q hq'
        rw [hq2] at hlt
        exact absurd hge (Nat.not_le.mpr hlt)
    subst hd0
    rw [hh]
    exact hminv.2.2.2.2.2 key h1 h2 h3 h4

theorem c9_in_place_mutation_witness :
    (processPayload [("123", 0)] [⟨55, "123"⟩]
      ⟨fun r => if r = 0 then
        [("outcome", Value.vStr "Failed"), ("note", Value.vStr "kept")]
        else [], 1⟩ false).get? 0 = some 0 ∧
    dictGet ((processHeap [("123", 0)] [⟨55, "123"⟩]
      ⟨fun r => if r = 0 then
        [("outcome", Value.vStr "Failed"), ("note", Value.vStr "kept")]
        else [], 1⟩ false).mem 0) "note" = some (Value.vStr "kept") := by
  have h := c9_in_place_mutation [("123", 0)] [⟨55, "123"⟩]
    ⟨fun r => if r = 0 then
      [("outcome", Value.vStr "Failed"), ("note", Value.vStr "kept")]
      else [], 1⟩ false (by decide) (by decide)
  refine ⟨h.1 0 ⟨55, "123"⟩ 0 rfl rfl, ?_⟩
  have h2 := h.2 0 (by decide) ⟨("123", 0), by decide, rfl⟩ "note"
    (by decide) (by decide) (by decide) (by decide)
  rw [h2]
  decide

/-- C10: when several placeholders share a matched test case id, the very
same dict reference is appended once per placeholder, so the payload entries
alias one another and the shared dict finally carries the `id` of the last
such placeholder. -/
theorem c10_duplicate_points (test_results : List (String × Nat))
    (points pre1 mid suf : List TestPoint) (p1 p2 : TestPoint) (h0 : Heap)
    (fl0 : Bool) (r : Nat)
    (htr : ∀ q ∈ test_results, q.2 < h0.next)
    (hpts : points = pre1 ++ p1 :: (mid ++ p2 :: suf))
    (hsame : p2.testCaseId = p1.testCaseId)
    (hlk : lookupRef test_results p1.testCaseId = some r)
    (hlast : ∀ q ∈ suf, lookupRef test_results q.testCaseId ≠ some r)
    (hok : processOk test_results points h0 fl0 = true) :
    (processPayload test_results points h0 fl0).get? pre1.length
      = some r ∧
    (processPayload test_results points h0 fl0).get?
      (pre1.length + 1 + mid.length) = some r ∧
    dictGet ((processHeap test_results points h0 fl0).mem r) "id"
      = some (Value.vNat p2.id) := by
  obtain ⟨s', hloop, hpl, hh, _⟩ := process_ok_elim hok
  subst hpts
  obtain ⟨tail, htail, _, hidx⟩ := processLoop_payload hloop
  have hi1 : (pre1 ++ p1 :: (mid ++ p2 :: suf)).get? pre1.length
      = some p1 := getq_append_cons _ _ _
  have hi2 : (pre1 ++ p1 :: (mid ++ p2 :: suf)).get?
      (pre1.length + 1 + mid.length) = some p2 := by
    rw [getq_append_cons_add]
    exact getq_append_cons mid suf p2
  have hlk2 : lookupRef test_results p2.testCaseId = some r := by
    rw [hsame]
    exact hlk
  have hpos1 : tail.get? pre1.length = some r := hidx _ p1 r hi1 hlk
  have hpos2 : tail.get? (pre1.length + 1 + mid.length) = some r :=
    hidx _ p2 r hi2 hlk2
  have hassoc : pre1 ++ p1 :: (mid ++ p2 :: suf)
      = (pre1 ++ p1 :: mid) ++ p2 :: suf := by simp
  rw [hassoc] at hloop
  obtain ⟨s1, hA, hrest⟩ := processLoop_append hloop
  simp only [processLoop] at hrest
  cases hstep : processPoint test_results p2 s1 with
  | error e => rw [hstep] at hrest; cases hrest
  | ok s2 =>
    rw [hstep] at hrest
    obtain ⟨h1, r', hcase, oc, hoc, hheap, _, _⟩ :=
      processPoint_ok_cases hstep
    cases hcase with
    | inr hm =>
      rw [hm.1] at hlk2
      cases hlk2
    | inl hm =>
      obtain ⟨hlkr, hh1⟩ := hm
      subst hh1
      have hrr : r' = r := by
        rw [hlkr] at hlk2
        cases hlk2
        rfl
      subst hrr
      have hrlt : r' < h0.next := by
        obtain ⟨q, hq, hq2⟩ := lookupRef_mem hlk
        exact hq2 ▸ htr q hq
      have hns1 : h0.next ≤ s1.heap.next := processLoop_next_mono hA
      have hid : dictGet (s2.heap.mem r') "id" = some (Value.vNat p2.id) := by
        rw [hheap, Heap.mem_set, if_pos rfl, mergeDict_get_id]
      have hfr : s'.heap.mem r' = s2.heap.mem r' := by
        refine processLoop_frame hrest hlast ?_
        rw [hheap, Heap.next_set]
        exact Nat.lt_of_lt_of_le hrlt hns1
      refine ⟨?_, ?_, ?_⟩
      · rw [hpl, htail]
        simpa using hpos1
      · rw [hpl, htail]
        simpa using hpos2
      · rw [hh, hfr, hid]

theorem c10_duplicate_points_witness :
    (processPayload [("123", 0)] [⟨55, "123"⟩, ⟨56, "123"⟩]
      ⟨fun r => if r = 0 then [("outcome", Value.vStr "Failed")] else [], 1⟩
      false).get? 0 = some 0 ∧
    (processPayload [("123", 0)] [⟨55, "123"⟩, ⟨56, "123"⟩]
      ⟨fun r => if r = 0 then [("outcome", Value.vStr "Failed")] else [], 1⟩
      false).get? 1 = some 0 ∧
    dictGet ((processHeap [("123", 0)] [⟨55, "123"⟩, ⟨56, "123"⟩]
      ⟨fun r => if r = 0 then [("outcome", Value.vStr "Failed")] else [], 1⟩
      false).mem 0) "id" = some (Value.vNat 56) :=
  c10_duplicate_points [("123", 0)] [⟨55, "123"⟩, ⟨56, "123"⟩]
    [] [] [] ⟨55, "123"⟩ ⟨56, "123"⟩
    ⟨fun r => if r = 0 then [("outcome", Value.vStr "Failed")] else [], 1⟩
    false 0 (by decide) rfl rfl (by decide) (by decide) (by decide)

end PostResults
